import Mathlib

/-!
Shallow embedding of the markdown→ADF converter of `jira_client.py`
(`JiraClient._convert_to_adf`, `JiraClient._tokens_to_adf`,
`JiraClient._process_inline`), together with theorems settling the
specification claims about it.

Machine integers do not occur in the modelled code; strings are modelled by
`String`, Python lists by `List`, and the JSON-dict nodes by inductive types
(a dict without a `"marks"` key is modelled as `marks = []`, which is how the
downstream consumer reads it).
-/

/-- A mark attached to a text node, as built by `_process_inline`
(`{"type": "strong"}`, …, `{"type": "link", "attrs": {"href": h}}`). -/
inductive Mark where
  | strong
  | em
  | strike
  | code
  | link (href : String)
deriving Repr, DecidableEq

/-- The `type` string of a mark dict, i.e. Python `m.get('type')`. -/
def markType : Mark → String
  | .strong => "strong"
  | .em => "em"
  | .strike => "strike"
  | .code => "code"
  | .link _ => "link"

/-- Children of an `inline` token, the kinds `_process_inline` inspects.
`link_open`'s href models the value found in the token's `attrs` (a missing
or empty href are treated identically by the code's truthiness test, so both
are `""`); likewise `image`'s `src`. -/
inductive InlineTok where
  | text (content : String)
  | code_inline (content : String)
  | strong_open
  | strong_close
  | em_open
  | em_close
  | s_open
  | s_close
  | link_open (href : String)
  | link_close
  | image (src : String) (alt : String)
  | softbreak
  | hardbreak
deriving Repr, DecidableEq

/-- Block-level markdown-it token kinds inspected by `_tokens_to_adf`.
`heading_open` carries the token's `tag` (e.g. `"h2"`); `fence`/`code_block`
carry `content` and `info`; `inline` carries its child run. -/
inductive Tok where
  | heading_open (tag : String)
  | heading_close
  | paragraph_open
  | paragraph_close
  | inline (children : List InlineTok)
  | bullet_list_open
  | bullet_list_close
  | ordered_list_open
  | ordered_list_close
  | list_item_open
  | list_item_close
  | fence (content : String) (info : String)
  | code_block (content : String) (info : String)
  | blockquote_open
  | blockquote_close
  | hr
  | table_open
  | table_close
  | thead_open
  | thead_close
  | tbody_open
  | tbody_close
  | tr_open
  | tr_close
  | th_open
  | th_close
  | td_open
  | td_close
  | html_block
  | html_inline
deriving Repr, DecidableEq

/-- ADF output nodes as the converter builds them (dicts with a `"type"` key;
`content` lists model the `"content"` lists, `marks = []` models an absent
`"marks"` key). -/
inductive Adf where
  | text (s : String) (marks : List Mark)
  | hardBreak
  | heading (level : Nat) (content : List Adf)
  | paragraph (content : List Adf)
  | bulletList (content : List Adf)
  | orderedList (content : List Adf)
  | listItem (content : List Adf)
  | codeBlock (language : Option String) (content : List Adf)
  | blockquote (content : List Adf)
  | rule
  | table (content : List Adf)
  | tableRow (content : List Adf)
  | tableHeader (content : List Adf)
  | tableCell (content : List Adf)
deriving Repr

/-- The root returned by `_convert_to_adf`:
`{"type": "doc", "version": version, "content": content}` (the `"type"` is
always the constant `"doc"`). -/
structure AdfDoc where
  version : Nat
  content : List Adf
deriving Repr

/-! ## Inline mark processor (`_process_inline`) -/

/-- The loop state of `_process_inline`: `adf_content`, `current_text`,
`current_marks`. -/
structure InlineState where
  acc : List Adf
  buf : String
  marks : List Mark

/-- Python `if current_text: adf_content.append({"type": "text", "text":
current_text}); current_text = ""` — flush the pending plain-text buffer as a
mark-less node. -/
def flushPlain (s : InlineState) : InlineState :=
  if s.buf = "" then s
  else { s with acc := s.acc ++ [Adf.text s.buf []], buf := "" }

/-- One iteration of the `for child in token.children` loop of
`_process_inline`. -/
def inlineStep (s : InlineState) : InlineTok → InlineState
  | .text c =>
      if s.marks.isEmpty then
        { s with buf := s.buf ++ c }
      else
        { acc := (if s.buf = "" then s.acc
                  else s.acc ++ [Adf.text s.buf s.marks]) ++ [Adf.text c s.marks],
          buf := "", marks := s.marks }
  | .code_inline c =>
      let s1 := flushPlain s
      { s1 with acc := s1.acc ++ [Adf.text c [Mark.code]] }
  | .strong_open =>
      let s1 := flushPlain s
      { s1 with marks := s1.marks ++ [Mark.strong] }
  | .strong_close =>
      { s with marks := s.marks.filter (fun m => markType m ≠ "strong") }
  | .em_open =>
      let s1 := flushPlain s
      { s1 with marks := s1.marks ++ [Mark.em] }
  | .em_close =>
      { s with marks := s.marks.filter (fun m => markType m ≠ "em") }
  | .s_open =>
      let s1 := flushPlain s
      { s1 with marks := s1.marks ++ [Mark.strike] }
  | .s_close =>
      { s with marks := s.marks.filter (fun m => markType m ≠ "strike") }
  | .link_open href =>
      let s1 := flushPlain s
      if href = "" then s1
      else { s1 with marks := s1.marks ++ [Mark.link href] }
  | .link_close =>
      { s with marks := s.marks.filter (fun m => markType m ≠ "link") }
  | .image src alt =>
      let s1 := flushPlain s
      if src = "" then s1
      else { s1 with acc := s1.acc ++
               [Adf.text ("[Image: " ++ (if alt = "" then src else alt) ++ "]") []] }
  | .softbreak =>
      { s with buf := s.buf ++ "\n" }
  | .hardbreak =>
      let s1 := flushPlain s
      { s1 with acc := s1.acc ++ [Adf.hardBreak] }

/-- `_process_inline` applied to the child run of an `inline` token: the
left-to-right loop followed by the final flush of the pending buffer. -/
def processInline (children : List InlineTok) : List Adf :=
  (flushPlain (children.foldl inlineStep ⟨[], "", []⟩)).acc

/-- `_process_inline` applied to a whole token: the guard
`if not token or token.type != 'inline' or not token.children: return []`. -/
def processInlineTok : Tok → List Adf
  | .inline children => processInline children
  | _ => []

/-- `self._process_inline(tokens[i]) if i < len(tokens) else []` — the inline
content read at the cursor one past a `heading_open`/`paragraph_open`. -/
def inlineAt : List Tok → List Adf
  | t :: _ => processInlineTok t
  | [] => []

/-! ## Leaf helpers of `_tokens_to_adf` -/

/-- Python `int(token.tag[1])` for the tokenizer's heading tags `"h1"`…`"h6"`
(the digit character's value; the tokenizer never produces other tags). -/
def headingLevel (tag : String) : Nat :=
  match tag.data with
  | _ :: c :: _ => c.toNat - 48
  | _ => 0

/-- Python `token.content.rstrip('\n')`. -/
def rstripNewlines (s : String) : String :=
  String.mk (s.data.reverse.dropWhile (fun c => c = '\n')).reverse

/-- The `codeBlock` node built for a `fence`/`code_block` token, with a
`language` attribute exactly when `token.info` is non-empty. -/
def mkCodeBlock (content info : String) : Adf :=
  Adf.codeBlock (if info = "" then none else some info.trim)
    [Adf.text (rstripNewlines content) []]

/-- The content of one table cell: the cell's inline run, wrapped in an
implicit paragraph when it is non-empty (`if cell_inline: cell_content =
[{"type": "paragraph", ...}]`). -/
def cellContent (children : List InlineTok) : List Adf :=
  if (processInline children).isEmpty then []
  else [Adf.paragraph (processInline children)]

/-! ## Sub-stream splitting of `_tokens_to_adf`

The Python walks a flat token list with a cursor `i`. The inner scanning
loops are modelled as splitting functions on the remaining suffix; each
returns the tokens the loop consumed (or the nodes it built) together with
the suffix left after the loop (the token that stopped the loop is consumed,
matching the unconditional `i += 1` skips). -/

/-- The scan `while i < len(tokens) and tokens[i].type != 'list_item_close':
i += 1` followed by `i += 1  # Skip list_item_close`: the slice
`tokens[item_start:item_end]` of one list item, and the suffix after the
close. -/
def takeItem : List Tok → List Tok × List Tok
  | [] => ([], [])
  | .list_item_close :: ts => ([], ts)
  | t :: ts =>
      let r := takeItem ts
      (t :: r.1, r.2)

theorem takeItem_fst_le (ts : List Tok) : (takeItem ts).1.length ≤ ts.length := by
  induction ts with
  | nil => simp [takeItem]
  | cons t ts ih =>
      cases t <;> simp [takeItem] <;> omega

theorem takeItem_snd_le (ts : List Tok) : (takeItem ts).2.length ≤ ts.length := by
  induction ts with
  | nil => simp [takeItem]
  | cons t ts ih =>
      cases t <;> simp [takeItem] <;> omega

/-- The scan `while i < len(tokens) and tokens[i].type != 'blockquote_close'`
collecting the tokens of a blockquote body, followed by the skip of the
close. -/
def takeQuote : List Tok → List Tok × List Tok
  | [] => ([], [])
  | .blockquote_close :: ts => ([], ts)
  | t :: ts =>
      let r := takeQuote ts
      (t :: r.1, r.2)

theorem takeQuote_fst_le (ts : List Tok) : (takeQuote ts).1.length ≤ ts.length := by
  induction ts with
  | nil => simp [takeQuote]
  | cons t ts ih =>
      cases t <;> simp [takeQuote] <;> omega

theorem takeQuote_snd_le (ts : List Tok) : (takeQuote ts).2.length ≤ ts.length := by
  induction ts with
  | nil => simp [takeQuote]
  | cons t ts ih =>
      cases t <;> simp [takeQuote] <;> omega

/-- `tokens[i].type == 'bullet_list_close'`. -/
def Tok.isBulletListClose : Tok → Bool
  | .bullet_list_close => true
  | _ => false

/-- `tokens[i].type == 'ordered_list_close'`. -/
def Tok.isOrderedListClose : Tok → Bool
  | .ordered_list_close => true
  | _ => false

/-- The list-body loop `while i < len(tokens) and tokens[i].type !=
'<kind>_list_close'` of `_tokens_to_adf`: collects the token slice of every
`list_item_open`…`list_item_close` span, skips any other token, and consumes
the closing token. Returns the item slices and the suffix after the close. -/
def collectItems (isClose : Tok → Bool) : List Tok → List (List Tok) × List Tok
  | [] => ([], [])
  | t :: ts =>
      if isClose t then ([], ts)
      else
        match t with
        | .list_item_open =>
            let r := takeItem ts
            let rest := collectItems isClose r.2
            (r.1 :: rest.1, rest.2)
        | _ => collectItems isClose ts
termination_by ts => ts.length
decreasing_by
  · have := takeItem_snd_le ts
    simp; omega
  · simp


theorem collectItems_snd_le (isClose : Tok → Bool) (ts : List Tok) :
    (collectItems isClose ts).2.length ≤ ts.length := by
  generalize hn : ts.length = n
  induction n using Nat.strong_induction_on generalizing ts with
  | _ n ih =>
    cases ts with
    | nil => simp [collectItems]
    | cons t ts =>
      have hts : ts.length < n := by simp at hn; omega
      have h1 := takeItem_snd_le ts
      have h2 := ih (takeItem ts).2.length (by omega) (takeItem ts).2 rfl
      have h3 := ih ts.length (by omega) ts rfl
      by_cases hc : isClose t
      · rw [collectItems.eq_def]; simp [hc]; omega
      · cases t <;> rw [collectItems.eq_def] <;> simp [hc] <;> omega

theorem collectItems_mem_lt (isClose : Tok → Bool) (ts : List Tok) :
    ∀ s ∈ (collectItems isClose ts).1, s.length < ts.length := by
  generalize hn : ts.length = n
  induction n using Nat.strong_induction_on generalizing ts with
  | _ n ih =>
    cases ts with
    | nil => simp [collectItems]
    | cons t ts =>
      intro s hs
      have hts : ts.length < n := by simp at hn; omega
      have h1 := takeItem_snd_le ts
      have h1b := takeItem_fst_le ts
      have h2 := ih (takeItem ts).2.length (by omega) (takeItem ts).2 rfl
      have h3 := ih ts.length (by omega) ts rfl
      by_cases hc : isClose t
      · rw [collectItems.eq_def] at hs; simp [hc] at hs
      · cases t <;> rw [collectItems.eq_def] at hs <;> simp [hc] at hs <;>
          first
          | (rcases hs with rfl | hs
             · simp; omega
             · have := h2 s hs; simp; omega)
          | (have hh := h3 s hs; simp; omega)

/-- `cell_type = "tableHeader" if is_header_row else "tableCell"` applied to
one cell's content. -/
def mkCell (isHeader : Bool) (content : List Adf) : Adf :=
  if isHeader then Adf.tableHeader content else Adf.tableCell content

/-- The cell loop `while i < len(tokens) and tokens[i].type != 'tr_close'` of
`_tokens_to_adf`: at a `th_open`/`td_open` the next token, if an `inline`,
supplies the cell content; the token after that is skipped unconditionally
(`i += 1  # Skip th_close or td_close`). Other tokens are skipped; the
`tr_close` that ends the loop is consumed by the `i += 1` that follows it.
Returns the cell nodes of one row and the suffix after the row. -/
def tableCells (isHeader : Bool) : List Tok → List Adf × List Tok
  | [] => ([], [])
  | .tr_close :: ts => ([], ts)
  | .th_open :: .inline children :: ts =>
      let r := tableCells isHeader (ts.drop 1)
      (mkCell isHeader (cellContent children) :: r.1, r.2)
  | .th_open :: ts =>
      let r := tableCells isHeader (ts.drop 1)
      (mkCell isHeader [] :: r.1, r.2)
  | .td_open :: .inline children :: ts =>
      let r := tableCells isHeader (ts.drop 1)
      (mkCell isHeader (cellContent children) :: r.1, r.2)
  | .td_open :: ts =>
      let r := tableCells isHeader (ts.drop 1)
      (mkCell isHeader [] :: r.1, r.2)
  | _ :: ts => tableCells isHeader ts
termination_by ts => ts.length
decreasing_by all_goals simp [List.length_drop] <;> omega

theorem tableCells_snd_le (isHeader : Bool) (ts : List Tok) :
    (tableCells isHeader ts).2.length ≤ ts.length := by
  generalize hn : ts.length = n
  induction n using Nat.strong_induction_on generalizing ts with
  | _ n ih =>
    cases ts with
    | nil => simp [tableCells]
    | cons t ts =>
      have hts : ts.length < n := by simp at hn; omega
      have ihts := ih ts.length hts ts rfl
      cases t <;> rw [tableCells.eq_def] <;> simp <;> try omega
      all_goals (
        rcases ts with _ | ⟨u, ts2⟩
        · simp [tableCells]
        · have h2 : (tableCells isHeader (ts2.drop 1)).2.length ≤ (ts2.drop 1).length :=
            ih (ts2.drop 1).length (by simp [List.length_drop] at hn ⊢; omega) _ rfl
          have h3 : (tableCells isHeader ts2).2.length ≤ ts2.length :=
            ih ts2.length (by simp at hn; omega) ts2 rfl
          simp only [List.length_cons] at hn
          cases u <;> simp [List.length_drop, List.drop_one] at h2 h3 ⊢ <;> omega)

/-- The row loop `while i < len(tokens) and tokens[i].type != 'table_close'`
of `_tokens_to_adf`, carrying the `is_header_row` flag: it starts `True`, is
set to `False` at a `thead_close`, and a `tr_open` starts the cell loop; a
row is appended only `if cells:`. Returns the row nodes and the suffix after
the consumed `table_close`. -/
def tableRowsAux (isHeader : Bool) : List Tok → List Adf × List Tok
  | [] => ([], [])
  | .table_close :: ts => ([], ts)
  | .thead_open :: ts => tableRowsAux isHeader ts
  | .tbody_open :: ts => tableRowsAux isHeader ts
  | .thead_close :: ts => tableRowsAux false ts
  | .tbody_close :: ts => tableRowsAux isHeader ts
  | .tr_open :: ts =>
      let c := tableCells isHeader ts
      let r := tableRowsAux isHeader c.2
      ((if c.1.isEmpty then r.1 else Adf.tableRow c.1 :: r.1), r.2)
  | _ :: ts => tableRowsAux isHeader ts
termination_by ts => ts.length
decreasing_by
  all_goals simp
  all_goals first
  | omega
  | exact Nat.lt_succ_of_le (tableCells_snd_le _ _)

theorem tableRowsAux_snd_le (isHeader : Bool) (ts : List Tok) :
    (tableRowsAux isHeader ts).2.length ≤ ts.length := by
  generalize hn : ts.length = n
  induction n using Nat.strong_induction_on generalizing ts isHeader with
  | _ n ih =>
    cases ts with
    | nil => simp [tableRowsAux]
    | cons t ts =>
      have hts : ts.length < n := by simp at hn; omega
      have ihts := fun b => ih ts.length hts b ts rfl
      have hc := tableCells_snd_le isHeader ts
      have ihc := fun b => ih (tableCells isHeader ts).2.length
        (by omega) b (tableCells isHeader ts).2 rfl
      simp only [List.length_cons] at hn
      cases t <;> rw [tableRowsAux.eq_def] <;> simp <;>
        first
        | (have hh := ihts isHeader; omega)
        | (have hh := ihts false; omega)
        | (have hh := ihc isHeader; omega)

/-! ## The block tree builder `_tokens_to_adf` -/

/-- The main `while i < len(tokens)` loop of `_tokens_to_adf`, phrased as a
recursion over the token suffix. Each elif branch of the source is one case;
every token kind the source does not test for (including closes with no
matching open) falls into the `i += 1` else branch, i.e. is skipped with no
output and no error. The `level` parameter of the source is only passed
along, never read, and is omitted. -/
def tokensToAdf : List Tok → List Adf
  | [] => []
  | .heading_open tag :: rest =>
      Adf.heading (headingLevel tag) (inlineAt rest) :: tokensToAdf (rest.drop 2)
  | .paragraph_open :: rest =>
      if (inlineAt rest).isEmpty then tokensToAdf (rest.drop 2)
      else Adf.paragraph (inlineAt rest) :: tokensToAdf (rest.drop 2)
  | .bullet_list_open :: rest =>
      Adf.bulletList ((collectItems Tok.isBulletListClose rest).1.attach.map
          fun s => Adf.listItem (tokensToAdf s.1))
        :: tokensToAdf (collectItems Tok.isBulletListClose rest).2
  | .ordered_list_open :: rest =>
      Adf.orderedList ((collectItems Tok.isOrderedListClose rest).1.attach.map
          fun s => Adf.listItem (tokensToAdf s.1))
        :: tokensToAdf (collectItems Tok.isOrderedListClose rest).2
  | .fence content info :: rest => mkCodeBlock content info :: tokensToAdf rest
  | .code_block content info :: rest => mkCodeBlock content info :: tokensToAdf rest
  | .blockquote_open :: rest =>
      Adf.blockquote (((takeQuote rest).1.attach.map
          fun t => tokensToAdf [t.1]).flatten)
        :: tokensToAdf (takeQuote rest).2
  | .hr :: rest => Adf.rule :: tokensToAdf rest
  | .table_open :: rest =>
      if (tableRowsAux true rest).1.isEmpty then tokensToAdf (tableRowsAux true rest).2
      else Adf.table (tableRowsAux true rest).1 :: tokensToAdf (tableRowsAux true rest).2
  | .heading_close :: rest => tokensToAdf rest
  | .paragraph_close :: rest => tokensToAdf rest
  | .inline _ :: rest => tokensToAdf rest
  | .bullet_list_close :: rest => tokensToAdf rest
  | .ordered_list_close :: rest => tokensToAdf rest
  | .list_item_open :: rest => tokensToAdf rest
  | .list_item_close :: rest => tokensToAdf rest
  | .blockquote_close :: rest => tokensToAdf rest
  | .table_close :: rest => tokensToAdf rest
  | .thead_open :: rest => tokensToAdf rest
  | .thead_close :: rest => tokensToAdf rest
  | .tbody_open :: rest => tokensToAdf rest
  | .tbody_close :: rest => tokensToAdf rest
  | .tr_open :: rest => tokensToAdf rest
  | .tr_close :: rest => tokensToAdf rest
  | .th_open :: rest => tokensToAdf rest
  | .th_close :: rest => tokensToAdf rest
  | .td_open :: rest => tokensToAdf rest
  | .td_close :: rest => tokensToAdf rest
  | .html_block :: rest => tokensToAdf rest
  | .html_inline :: rest => tokensToAdf rest
termination_by ts => ts.length
decreasing_by
  all_goals simp [List.length_drop]
  all_goals first
  | omega
  | (have hh := collectItems_mem_lt Tok.isBulletListClose rest s.1 s.2; omega)
  | (have hh := collectItems_mem_lt Tok.isOrderedListClose rest s.1 s.2; omega)
  | (have hh := collectItems_snd_le Tok.isBulletListClose rest; omega)
  | (have hh := collectItems_snd_le Tok.isOrderedListClose rest; omega)
  | (have h1 := List.length_pos.mpr (List.ne_nil_of_mem t.2)
     have h2 := takeQuote_fst_le rest
     omega)
  | (have hh := takeQuote_snd_le rest; omega)
  | (have hh := tableRowsAux_snd_le true rest; omega)

/-- `_convert_to_adf`: the empty string short-circuits to an empty document;
otherwise the tokenizer's output (the external markdown-it parser, modelled
as an arbitrary function) is fed to `_tokens_to_adf`. The result is always
`{"type": "doc", "version": 1, "content": <list>}`. -/
def convertToAdf (tokenize : String → List Tok) (text : String) : AdfDoc :=
  if text = "" then { version := 1, content := [] }
  else { version := 1, content := tokensToAdf (tokenize text) }

/-- The bullet-list branch of `tokensToAdf`, with the termination bookkeeping
(`attach`) removed. -/
theorem tokensToAdf_bullet (rest : List Tok) :
    tokensToAdf (.bullet_list_open :: rest) =
      Adf.bulletList ((collectItems Tok.isBulletListClose rest).1.map
          fun s => Adf.listItem (tokensToAdf s))
        :: tokensToAdf (collectItems Tok.isBulletListClose rest).2 := by
  rw [tokensToAdf]
  exact congrArg
    (fun x => Adf.bulletList x :: tokensToAdf (collectItems Tok.isBulletListClose rest).2)
    (List.attach_map_val _ (fun s => Adf.listItem (tokensToAdf s)))

/-- The ordered-list branch of `tokensToAdf`, with the termination
bookkeeping (`attach`) removed. -/
theorem tokensToAdf_ordered (rest : List Tok) :
    tokensToAdf (.ordered_list_open :: rest) =
      Adf.orderedList ((collectItems Tok.isOrderedListClose rest).1.map
          fun s => Adf.listItem (tokensToAdf s))
        :: tokensToAdf (collectItems Tok.isOrderedListClose rest).2 := by
  rw [tokensToAdf]
  exact congrArg
    (fun x => Adf.orderedList x :: tokensToAdf (collectItems Tok.isOrderedListClose rest).2)
    (List.attach_map_val _ (fun s => Adf.listItem (tokensToAdf s)))

/-- The blockquote branch of `tokensToAdf`, with the termination bookkeeping
(`attach`) removed: every token of the body is converted as a single-token
sub-sequence in isolation. -/
theorem tokensToAdf_blockquote (rest : List Tok) :
    tokensToAdf (.blockquote_open :: rest) =
      Adf.blockquote (((takeQuote rest).1.map fun t => tokensToAdf [t]).flatten)
        :: tokensToAdf (takeQuote rest).2 := by
  rw [tokensToAdf]
  exact congrArg
    (fun x => Adf.blockquote x.flatten :: tokensToAdf (takeQuote rest).2)
    (List.attach_map_val _ (fun t => tokensToAdf [t]))

/-- The number of top-level completed blocks of a token stream: one for each
top-level block the builder completes into a node. A paragraph whose inline
content resolves to zero nodes and a table with zero rows are suppressed by
the builder (see `tokensToAdf`) and therefore not completed; every other
block branch completes exactly one node. The recursion consumes exactly the
tokens the corresponding builder branch consumes. -/
def topLevelCompletedBlocks : List Tok → Nat
  | [] => 0
  | .heading_open _ :: rest => topLevelCompletedBlocks (rest.drop 2) + 1
  | .paragraph_open :: rest =>
      if (inlineAt rest).isEmpty then topLevelCompletedBlocks (rest.drop 2)
      else topLevelCompletedBlocks (rest.drop 2) + 1
  | .bullet_list_open :: rest =>
      topLevelCompletedBlocks (collectItems Tok.isBulletListClose rest).2 + 1
  | .ordered_list_open :: rest =>
      topLevelCompletedBlocks (collectItems Tok.isOrderedListClose rest).2 + 1
  | .fence _ _ :: rest => topLevelCompletedBlocks rest + 1
  | .code_block _ _ :: rest => topLevelCompletedBlocks rest + 1
  | .blockquote_open :: rest => topLevelCompletedBlocks (takeQuote rest).2 + 1
  | .hr :: rest => topLevelCompletedBlocks rest + 1
  | .table_open :: rest =>
      if (tableRowsAux true rest).1.isEmpty
      then topLevelCompletedBlocks (tableRowsAux true rest).2
      else topLevelCompletedBlocks (tableRowsAux true rest).2 + 1
  | .heading_close :: rest => topLevelCompletedBlocks rest
  | .paragraph_close :: rest => topLevelCompletedBlocks rest
  | .inline _ :: rest => topLevelCompletedBlocks rest
  | .bullet_list_close :: rest => topLevelCompletedBlocks rest
  | .ordered_list_close :: rest => topLevelCompletedBlocks rest
  | .list_item_open :: rest => topLevelCompletedBlocks rest
  | .list_item_close :: rest => topLevelCompletedBlocks rest
  | .blockquote_close :: rest => topLevelCompletedBlocks rest
  | .table_close :: rest => topLevelCompletedBlocks rest
  | .thead_open :: rest => topLevelCompletedBlocks rest
  | .thead_close :: rest => topLevelCompletedBlocks rest
  | .tbody_open :: rest => topLevelCompletedBlocks rest
  | .tbody_close :: rest => topLevelCompletedBlocks rest
  | .tr_open :: rest => topLevelCompletedBlocks rest
  | .tr_close :: rest => topLevelCompletedBlocks rest
  | .th_open :: rest => topLevelCompletedBlocks rest
  | .th_close :: rest => topLevelCompletedBlocks rest
  | .td_open :: rest => topLevelCompletedBlocks rest
  | .td_close :: rest => topLevelCompletedBlocks rest
  | .html_block :: rest => topLevelCompletedBlocks rest
  | .html_inline :: rest => topLevelCompletedBlocks rest
termination_by ts => ts.length
decreasing_by
  all_goals simp [List.length_drop]
  all_goals first
  | omega
  | (have hh := collectItems_snd_le Tok.isBulletListClose rest; omega)
  | (have hh := collectItems_snd_le Tok.isOrderedListClose rest; omega)
  | (have hh := takeQuote_snd_le rest; omega)
  | (have hh := tableRowsAux_snd_le true rest; omega)

/-- C7: for every token sequence (balanced ones included) the converter
terminates — `tokensToAdf` is total, defined by well-founded recursion on the
stream length — and returns a node list whose length equals the number of
top-level completed blocks of the input (`_convert_to_adf` wraps exactly this
list as the `doc` root's `content`). -/
theorem tokensToAdf_length (ts : List Tok) :
    (tokensToAdf ts).length = topLevelCompletedBlocks ts := by
  generalize hn : ts.length = n
  induction n using Nat.strong_induction_on generalizing ts with
  | _ n ih =>
    cases ts with
    | nil => simp [tokensToAdf, topLevelCompletedBlocks]
    | cons t ts =>
      simp only [List.length_cons] at hn
      have ihl := fun (l : List Tok) (h : l.length < n) => ih l.length h l rfl
      have hd2 : (ts.drop 2).length < n := by simp [List.length_drop]; omega
      have hts : ts.length < n := by omega
      have hcb : ((collectItems Tok.isBulletListClose ts).2).length < n := by
        have := collectItems_snd_le Tok.isBulletListClose ts; omega
      have hco : ((collectItems Tok.isOrderedListClose ts).2).length < n := by
        have := collectItems_snd_le Tok.isOrderedListClose ts; omega
      have hq : (takeQuote ts).2.length < n := by
        have := takeQuote_snd_le ts; omega
      have htr : (tableRowsAux true ts).2.length < n := by
        have := tableRowsAux_snd_le true ts; omega
      cases t
      case heading_open tag =>
        rw [tokensToAdf, topLevelCompletedBlocks]
        simp [ihl _ hd2]
      case paragraph_open =>
        rw [tokensToAdf, topLevelCompletedBlocks]
        by_cases h : (inlineAt ts).isEmpty <;> simp [h, ihl _ hd2]
      case bullet_list_open =>
        rw [tokensToAdf_bullet, topLevelCompletedBlocks]
        simp [ihl _ hcb]
      case ordered_list_open =>
        rw [tokensToAdf_ordered, topLevelCompletedBlocks]
        simp [ihl _ hco]
      case blockquote_open =>
        rw [tokensToAdf_blockquote, topLevelCompletedBlocks]
        simp [ihl _ hq]
      case table_open =>
        rw [tokensToAdf, topLevelCompletedBlocks]
        by_cases h : (tableRowsAux true ts).1.isEmpty <;> simp [h, ihl _ htr]
      all_goals rw [tokensToAdf, topLevelCompletedBlocks]
      all_goals simp [ihl _ hts]

/-! ## Claims -/

/-- C1 counterexample: a `list_item_close` with no matching `list_item_open`
does not produce any structural error — the converter has no error path at
all (it is a total function); the unmatched close falls into the `else:
i += 1` branch and is silently skipped, and the whole conversion still
returns a normal `doc` root. This refutes the claim that a `StructuralError`
naming the offending token is raised. -/
theorem c1_counterexample :
    tokensToAdf [Tok.list_item_close] = [] ∧
    convertToAdf (fun _ => [Tok.list_item_close]) "- text" =
      { version := 1, content := [] } := by
  constructor
  · rw [tokensToAdf, tokensToAdf]
  · simp [convertToAdf]
    rw [tokensToAdf, tokensToAdf]

/-- C1 amended: the converter never raises: a close token with no matching
open is skipped with no output and no error, and end-of-stream with unclosed
opens still emits the nodes built so far (an unclosed blockquote or bullet
list yields its container node with the content gathered up to the end);
conversion is a pure function of the token stream, so no partial mutation is
visible to the caller. -/
theorem c1_amended_claim :
    (∀ ts : List Tok, tokensToAdf (Tok.list_item_close :: ts) = tokensToAdf ts) ∧
    tokensToAdf [Tok.blockquote_open] = [Adf.blockquote []] ∧
    tokensToAdf [Tok.bullet_list_open] = [Adf.bulletList []] := by
  refine ⟨fun ts => by rw [tokensToAdf], ?_, ?_⟩
  · simp [tokensToAdf_blockquote, takeQuote]
    rw [tokensToAdf]
  · simp [tokensToAdf_bullet, collectItems]
    rw [tokensToAdf]

/-- C2 counterexample: a table token stream with no `thead` section yields a
`tableHeader` cell, not a `tableCell`: `is_header_row` starts `True` at
`table_open` and is only reset at a `thead_close`, which never comes. This
refutes the claim that every cell of a table without a `thead` section is
emitted with type `tableCell`. -/
theorem c2_counterexample :
    tokensToAdf [Tok.table_open, Tok.tbody_open, Tok.tr_open, Tok.td_open,
        Tok.inline [InlineTok.text "x"], Tok.td_close, Tok.tr_close, Tok.tbody_close,
        Tok.table_close] =
      [Adf.table [Adf.tableRow [Adf.tableHeader [Adf.paragraph [Adf.text "x" []]]]]] := by
  simp [tokensToAdf, tableRowsAux, tableCells, mkCell, cellContent, processInline,
    inlineStep, flushPlain]

/-- C2 amended: the in-header-section flag is true from `table_open` until a
`thead_close` is seen and false from then on. Cells inside a `thead` section
are emitted as `tableHeader` and cells after `thead_close` as `tableCell`;
in a table with no `thead` section every cell is emitted as `tableHeader`
(the flag is never reset). -/
theorem c2_amended_claim (cs1 cs2 : List InlineTok) (ts : List Tok) :
    tokensToAdf (Tok.table_open :: Tok.thead_open :: Tok.tr_open :: Tok.th_open ::
        Tok.inline cs1 :: Tok.th_close :: Tok.tr_close :: Tok.thead_close ::
        Tok.tbody_open :: Tok.tr_open :: Tok.td_open :: Tok.inline cs2 ::
        Tok.td_close :: Tok.tr_close :: Tok.tbody_close :: Tok.table_close :: ts)
      = Adf.table [Adf.tableRow [Adf.tableHeader (cellContent cs1)],
                   Adf.tableRow [Adf.tableCell (cellContent cs2)]] :: tokensToAdf ts ∧
    tokensToAdf (Tok.table_open :: Tok.tbody_open :: Tok.tr_open :: Tok.td_open ::
        Tok.inline cs2 :: Tok.td_close :: Tok.tr_close :: Tok.tbody_close ::
        Tok.table_close :: ts)
      = Adf.table [Adf.tableRow [Adf.tableHeader (cellContent cs2)]] :: tokensToAdf ts := by
  constructor <;> simp [tokensToAdf, tableRowsAux, tableCells, mkCell]

/-- C3 counterexample: an inline run consisting only of whitespace text and a
softbreak does not yield zero nodes — the whitespace and the newline
accumulate in the pending buffer and the final flush emits one mark-less
text node. -/
theorem c3_counterexample :
    processInline [InlineTok.text " ", InlineTok.softbreak] = [Adf.text " \n" []] ∧
    processInline [InlineTok.text " ", InlineTok.softbreak] ≠ [] := by
  refine ⟨rfl, ?_⟩
  simp [processInline, inlineStep, flushPlain]

/-- C3 amended: a paragraph whose inline content resolves to zero nodes is
dropped — no paragraph node is appended to its parent's content. (An inline
run of whitespace text or softbreaks resolves to one whitespace text node,
not zero; zero nodes arise e.g. from an empty child run.) -/
theorem c3_amended_claim (cs : List InlineTok) (ts : List Tok)
    (h : processInline cs = []) :
    tokensToAdf (Tok.paragraph_open :: Tok.inline cs :: Tok.paragraph_close :: ts)
      = tokensToAdf ts := by
  simp [tokensToAdf, inlineAt, processInlineTok, h]

theorem c3_amended_claim_witness :
    processInline [] = [] ∧
    tokensToAdf [Tok.paragraph_open, Tok.inline [], Tok.paragraph_close]
      = tokensToAdf [] :=
  ⟨rfl, c3_amended_claim [] [] rfl⟩

/-- C4 counterexample: a table with zero rows does not emit a `table` node
with empty content — `if table_rows:` suppresses the container entirely. -/
theorem c4_counterexample :
    tokensToAdf [Tok.table_open, Tok.table_close] = [] := by
  simp [tokensToAdf, tableRowsAux]

/-- C4 amended: a bullet or ordered list with zero items still emits its
container node with an empty content sequence, but a table with zero rows is
suppressed — no `table` node is emitted. -/
theorem c4_amended_claim :
    (∀ ts : List Tok, tokensToAdf (Tok.bullet_list_open :: Tok.bullet_list_close :: ts)
        = Adf.bulletList [] :: tokensToAdf ts) ∧
    (∀ ts : List Tok, tokensToAdf (Tok.ordered_list_open :: Tok.ordered_list_close :: ts)
        = Adf.orderedList [] :: tokensToAdf ts) ∧
    (∀ ts : List Tok, tokensToAdf (Tok.table_open :: Tok.table_close :: ts)
        = tokensToAdf ts) := by
  refine ⟨fun ts => ?_, fun ts => ?_, fun ts => ?_⟩
  · rw [tokensToAdf_bullet]
    simp [collectItems, Tok.isBulletListClose]
  · rw [tokensToAdf_ordered]
    simp [collectItems, Tok.isOrderedListClose]
  · simp [tokensToAdf, tableRowsAux]

/-- C5: for every input string (the empty string included) and every
tokenizer, conversion returns a root of exactly the shape
`{"type": "doc", "version": 1, "content": <list>}`: the version is always 1
and the content field is always a list — the empty list for empty input,
`tokensToAdf` of the token stream otherwise — never null or missing. -/
theorem c5_root_shape (tokenize : String → List Tok) (text : String) :
    (convertToAdf tokenize text).version = 1 ∧
    (convertToAdf tokenize text).content =
      (if text = "" then [] else tokensToAdf (tokenize text)) := by
  by_cases h : text = "" <;> simp [convertToAdf, h]

/-- C6: the inline run of `"**bold *and italic***"` (strong_open, text,
em_open, text, em_close, strong_close) yields a text node with marks exactly
`[strong, em]` for the nested span and a separate text node with mark
exactly `[strong]` for the outer span, marks in open order. -/
theorem c6_nested_marks :
    processInline [InlineTok.strong_open, InlineTok.text "bold ", InlineTok.em_open,
        InlineTok.text "and italic", InlineTok.em_close, InlineTok.strong_close] =
      [Adf.text "bold " [Mark.strong], Adf.text "and italic" [Mark.strong, Mark.em]] := rfl

/-- C8: for every `code_inline` token and every processor state — whatever
marks are currently open — the step flushes the pending plain-text buffer
(as a mark-less node, if non-empty) and emits a standalone text node whose
marks are exactly `[code]`; the open marks are not attached to it (they are
preserved unchanged for subsequent tokens). -/
theorem c8_code_inline_step (acc : List Adf) (buf : String) (marks : List Mark)
    (c : String) :
    inlineStep ⟨acc, buf, marks⟩ (InlineTok.code_inline c) =
      ⟨acc ++ (if buf = "" then [] else [Adf.text buf []]) ++ [Adf.text c [Mark.code]],
        "", marks⟩ := by
  by_cases h : buf = "" <;> simp [inlineStep, flushPlain, h]

/-- C9 counterexample: a `heading_open` token with tag `h7` is emitted with
level 7 — `int(token.tag[1])` is used as-is, there is no clamping into
1..6. -/
theorem c9_counterexample :
    tokensToAdf [Tok.heading_open "h7"] = [Adf.heading 7 []] ∧ ¬(7 ≤ 6) := by
  refine ⟨?_, by omega⟩
  simp [tokensToAdf, inlineAt, headingLevel]

/-- C9 amended: the heading level is the tag's digit taken as-is, with no
clamping; for the tags `h1`…`h6` — the only ones the CommonMark tokenizer
produces — the emitted level is between 1 and 6 inclusive. -/
theorem c9_amended_claim (tag : String)
    (h : tag ∈ (["h1", "h2", "h3", "h4", "h5", "h6"] : List String))
    (rest : List Tok) :
    tokensToAdf (Tok.heading_open tag :: rest)
      = Adf.heading (headingLevel tag) (inlineAt rest) :: tokensToAdf (rest.drop 2) ∧
    1 ≤ headingLevel tag ∧ headingLevel tag ≤ 6 := by
  refine ⟨by rw [tokensToAdf], ?_, ?_⟩ <;> (fin_cases h <;> decide)

theorem c9_amended_claim_witness :
    "h3" ∈ (["h1", "h2", "h3", "h4", "h5", "h6"] : List String) ∧
    (tokensToAdf [Tok.heading_open "h3"]
        = Adf.heading (headingLevel "h3") (inlineAt ([] : List Tok))
            :: tokensToAdf (([] : List Tok).drop 2) ∧
      1 ≤ headingLevel "h3" ∧ headingLevel "h3" ≤ 6) :=
  ⟨by decide, c9_amended_claim "h3" (by decide) []⟩

/-- C10 counterexample: a blockquote whose body is a multi-token heading
block does not get an empty content sequence: the isolated `heading_open`
token alone already emits a heading node (with empty inline content), so the
blockquote's content is non-empty. -/
theorem c10_counterexample :
    tokensToAdf [Tok.blockquote_open, Tok.heading_open "h1",
        Tok.inline [InlineTok.text "t"], Tok.heading_close, Tok.blockquote_close]
      = [Adf.blockquote [Adf.heading 1 []]] ∧
    [Adf.heading 1 []] ≠ ([] : List Adf) := by
  refine ⟨?_, by simp⟩
  simp [tokensToAdf_blockquote, takeQuote, tokensToAdf, inlineAt, headingLevel]

/-- C10 amended: each token of a blockquote body is recursively converted as
a single-token sub-sequence in isolation (see `tokensToAdf_blockquote`); for
a body that is a paragraph (`paragraph_open`, `inline`, `paragraph_close`)
no single token produces a node on its own, so the emitted blockquote node
has empty content. (A heading or list body, by contrast, yields a node with
empty content inside the blockquote, so its content is not empty.) -/
theorem c10_amended_claim (cs : List InlineTok) (ts : List Tok) :
    tokensToAdf (Tok.blockquote_open :: Tok.paragraph_open :: Tok.inline cs ::
        Tok.paragraph_close :: Tok.blockquote_close :: ts)
      = Adf.blockquote [] :: tokensToAdf ts := by
  rw [tokensToAdf_blockquote]
  simp [takeQuote, tokensToAdf, inlineAt, processInlineTok]
